import Mathlib

/-!
Shallow embedding of `src/pymongo/client_session.py` (logical sessions and
the server-session pool).

Modelling choices:
* Wall-clock time (`monotonic.time()`) is passed explicitly as a rational
  `now` argument to every operation that reads the clock; within one pool
  operation the clock is read once.
* The opaque 16-byte random session identifier is modelled as a natural
  number supplied by the caller (`fresh_id`) whenever the code mints a new
  `_ServerSession`; uniqueness of the random value is an assumption of the
  source, not something it computes.
* `collections.deque` is modelled as `List`, index 0 being the left
  (front, most-recently-used) end: `popleft` is pattern matching on the
  head, `appendleft` is cons, `pop`/`self[-1]` act on the last element.
* Mutation becomes explicit state passing: methods that mutate return the
  updated value.
-/

namespace PyMongoSession

/-- Translation of `SessionOptions`: one immutable flag. -/
structure SessionOptions where
  causally_consistent_reads : Bool
deriving DecidableEq, Repr

/-- Translation of `_ServerSession`: the opaque server-assigned identifier
plus the last-use timestamp. -/
structure ServerSession where
  session_id : Nat
  last_use : ℚ
deriving DecidableEq, Repr

/-- Translation of `_ServerSession.__init__`: a freshly minted record carries
a new identifier and `last_use = now`. -/
def ServerSession.create (fresh_id : Nat) (now : ℚ) : ServerSession :=
  { session_id := fresh_id, last_use := now }

/-- Translation of `_ServerSession.timed_out`:
`idle_seconds > (session_timeout_minutes - 1) * 60`. -/
def ServerSession.timed_out (s : ServerSession) (now : ℚ)
    (session_timeout_minutes : ℚ) : Bool :=
  let idle_seconds := now - s.last_use
  decide (idle_seconds > (session_timeout_minutes - 1) * 60)

/-- Translation of `_ServerSession.use_lsid`: set `last_use = now` and return
the identifier. -/
def ServerSession.use_lsid (s : ServerSession) (now : ℚ) :
    ServerSession × Nat :=
  ({ s with last_use := now }, s.session_id)

/-- The pool `_ServerSessionPool` is a deque of `_ServerSession`; front of
the list is the left (most-recently-used) end. -/
abbrev ServerSessionPool := List ServerSession

/-- Translation of `_ServerSessionPool._clear_stale`: while the rightmost
element is timed out, pop it; stop at the first element from the right that
is not timed out. Equivalently, drop the maximal timed-out suffix. -/
def clear_stale (pool : ServerSessionPool) (now tm : ℚ) : ServerSessionPool :=
  (pool.reverse.dropWhile (fun s => s.timed_out now tm)).reverse

/-- Translation of the `while self: s = self.popleft() ...` loop inside
`get_server_session`: pop sessions from the left, discarding timed-out ones,
until one that is not timed out is found; `none` when the deque runs out. -/
def popFresh (pool : ServerSessionPool) (now tm : ℚ) :
    Option (ServerSession × ServerSessionPool) :=
  match pool with
  | [] => none
  | s :: rest =>
      if s.timed_out now tm then popFresh rest now tm else some (s, rest)

/-- Translation of `_ServerSessionPool.get_server_session`: clear stale
sessions from the right, then pop from the left until a live session is
found; if the pool empties, mint a new `_ServerSession`. Returns the
checked-out session and the remaining pool. -/
def get_server_session (pool : ServerSessionPool) (now tm : ℚ)
    (fresh_id : Nat) : ServerSession × ServerSessionPool :=
  match popFresh (clear_stale pool now tm) now tm with
  | some (s, rest) => (s, rest)
  | none => (ServerSession.create fresh_id now, [])

/-- Translation of `_ServerSessionPool.return_server_session`: clear stale
sessions, then append the returned session on the left unless it is itself
timed out. -/
def return_server_session (server_session : ServerSession)
    (pool : ServerSessionPool) (now tm : ℚ) : ServerSessionPool :=
  let p := clear_stale pool now tm
  if server_session.timed_out now tm then p else server_session :: p

/-- Translation of `_ServerSessionPool.return_server_session_no_lock`:
`appendleft`, unconditionally. -/
def return_server_session_no_lock (server_session : ServerSession)
    (pool : ServerSessionPool) : ServerSessionPool :=
  server_session :: pool

/-- Translation of `ClientSession`: the owning client is opaque (a number),
the server session is `none` once the session has ended, and the auth set is
an opaque payload. -/
structure ClientSession where
  client : Nat
  server_session : Option ServerSession
  options : SessionOptions
  authset : List Nat
deriving DecidableEq, Repr

/-- Modelled from the spec: `MongoClient._return_server_session`, called by
`ClientSession._end_session`, is not part of src/. Per the spec (§4.4,
§6), with `lock = true` it returns the record through the locked release
path `return_server_session`, and with `lock = false` through the
lock-free `return_server_session_no_lock`. -/
def client_return_server_session (server_session : ServerSession)
    (pool : ServerSessionPool) (lock : Bool) (now tm : ℚ) :
    ServerSessionPool :=
  if lock then return_server_session server_session pool now tm
  else return_server_session_no_lock server_session pool

/-- Translation of `ClientSession._end_session`: if the session still owns a
server session, return it to the client's pool and clear the reference;
otherwise do nothing. The pool state is threaded explicitly. -/
def end_session_impl (cs : ClientSession) (pool : ServerSessionPool)
    (lock : Bool) (now tm : ℚ) : ClientSession × ServerSessionPool :=
  match cs.server_session with
  | some s =>
      ({ cs with server_session := none },
       client_return_server_session s pool lock now tm)
  | none => (cs, pool)

/-- Translation of `ClientSession.end_session`: `_end_session(True)`. -/
def end_session (cs : ClientSession) (pool : ServerSessionPool)
    (now tm : ℚ) : ClientSession × ServerSessionPool :=
  end_session_impl cs pool true now tm

/-- Translation of the `ClientSession.session_id` property: raises
`InvalidOperation` on an ended session, modelled as `Except`. -/
def session_id (cs : ClientSession) : Except String Nat :=
  match cs.server_session with
  | none => Except.error "Cannot use ended session"
  | some s => Except.ok s.session_id

/-- Translation of the `ClientSession.has_ended` property. -/
def has_ended (cs : ClientSession) : Bool :=
  cs.server_session.isNone

/-- Translation of `ClientSession._use_lsid`: raises `InvalidOperation` on an
ended session, otherwise delegates to `_ServerSession.use_lsid`. -/
def use_lsid_handle (cs : ClientSession) (now : ℚ) :
    Except String (ClientSession × Nat) :=
  match cs.server_session with
  | none => Except.error "Cannot use ended session"
  | some s =>
      let r := s.use_lsid now
      Except.ok ({ cs with server_session := some r.1 }, r.2)

/-! Helper lemmas about the pool loops. -/

/-- Behaviour of the pop-from-the-left loop of `get_server_session`: either it
finds the first session that is not timed out, having discarded the timed-out
sessions in front of it, or the whole pool was timed out and it ran dry. -/
lemma popFresh_spec (now tm : ℚ) (pool : ServerSessionPool) :
    (∃ s rest pre, popFresh pool now tm = some (s, rest) ∧
        pool = pre ++ s :: rest ∧
        (∀ x ∈ pre, x.timed_out now tm = true) ∧
        s.timed_out now tm = false)
    ∨ (popFresh pool now tm = none ∧
        ∀ x ∈ pool, x.timed_out now tm = true) := by
  induction pool with
  | nil => exact Or.inr ⟨rfl, by simp⟩
  | cons s rest ih =>
      by_cases h : s.timed_out now tm = true
      · rcases ih with ⟨s', r', pre, heq, hsplit, hpre, hfresh⟩ | ⟨heq, hall⟩
        · refine Or.inl ⟨s', r', s :: pre, ?_, ?_, ?_, hfresh⟩
          · simpa [popFresh, h] using heq
          · simp [hsplit]
          · intro x hx
            rcases List.mem_cons.1 hx with rfl | hx
            · exact h
            · exact hpre x hx
        · refine Or.inr ⟨by simpa [popFresh, h] using heq, ?_⟩
          intro x hx
          rcases List.mem_cons.1 hx with rfl | hx
          · exact h
          · exact hall x hx
      · refine Or.inl ⟨s, rest, [], ?_, by simp, by simp, ?_⟩
        · simp [popFresh, h]
        · simpa using h

/-- Result of the stale sweep: the pool splits into the kept part and a
timed-out suffix that was evicted. -/
lemma clear_stale_suffix (pool : ServerSessionPool) (now tm : ℚ) :
    ∃ suffix, pool = clear_stale pool now tm ++ suffix ∧
      ∀ x ∈ suffix, x.timed_out now tm = true := by
  refine ⟨(pool.reverse.takeWhile (fun s => s.timed_out now tm)).reverse,
    ?_, ?_⟩
  · have h := congrArg List.reverse
      (List.takeWhile_append_dropWhile (fun s => s.timed_out now tm)
        pool.reverse)
    rw [List.reverse_append, List.reverse_reverse] at h
    simp only [clear_stale]
    exact h.symm
  · intro x hx
    rw [List.mem_reverse] at hx
    have hx' := @List.mem_takeWhile_imp ServerSession
      (fun s => s.timed_out now tm) pool.reverse x hx
    simpa using hx'

/-- Maximality of the stale sweep: the sweep stops at the first session from
the right that is not timed out, so the kept part's last element (when there
is one) is live. -/
lemma clear_stale_getLast (pool : ServerSessionPool) (now tm : ℚ) :
    (clear_stale pool now tm).getLast?.all
      (fun x => !(x.timed_out now tm)) = true := by
  have h := List.head?_dropWhile_not
    (fun s => s.timed_out now tm) pool.reverse
  simp only [clear_stale, List.getLast?_reverse]
  revert h
  cases (pool.reverse.dropWhile (fun s => s.timed_out now tm)).head? with
  | none => intro _; rfl
  | some x => intro h; simpa using h

/-- C1: `get_server_session` first evicts a timed-out suffix from the back
(every evicted session is timed out), then pops from the front, discarding
timed-out sessions, until a live one is found and returned with the rest of
the pool; when everything was timed out, it returns a freshly minted session
and the empty pool. It is a total function, so it never fails. -/
theorem get_server_session_correct (pool : ServerSessionPool) (now tm : ℚ)
    (fresh_id : Nat) :
    (∃ suffix, pool = clear_stale pool now tm ++ suffix ∧
        ∀ x ∈ suffix, x.timed_out now tm = true)
    ∧ ((∃ pre,
          clear_stale pool now tm =
            pre ++ (get_server_session pool now tm fresh_id).1 ::
              (get_server_session pool now tm fresh_id).2 ∧
          (∀ x ∈ pre, x.timed_out now tm = true) ∧
          (get_server_session pool now tm fresh_id).1.timed_out now tm
            = false)
      ∨ ((∀ x ∈ clear_stale pool now tm, x.timed_out now tm = true) ∧
          get_server_session pool now tm fresh_id =
            (ServerSession.create fresh_id now, []))) := by
  refine ⟨clear_stale_suffix pool now tm, ?_⟩
  rcases popFresh_spec now tm (clear_stale pool now tm) with
    ⟨s, rest, pre, heq, hsplit, hpre, hfresh⟩ | ⟨heq, hall⟩
  · left
    refine ⟨pre, ?_, hpre, ?_⟩
    · simpa [get_server_session, heq] using hsplit
    · simpa [get_server_session, heq] using hfresh
  · right
    exact ⟨hall, by simp [get_server_session, heq]⟩

/-- Witness for C1 at a concrete input: a live pooled session is returned. -/
theorem get_server_session_correct_witness :
    (get_server_session [⟨5, 0⟩] 0 30 7).1.timed_out 0 30 = false := by
  rcases (get_server_session_correct [⟨5, 0⟩] 0 30 7).2 with
    ⟨pre, _, _, hfresh⟩ | ⟨hall, _⟩
  · exact hfresh
  · have hmem : (⟨5, 0⟩ : ServerSession) ∈ clear_stale [⟨5, 0⟩] 0 30 := by
      norm_num [clear_stale, List.dropWhile, ServerSession.timed_out]
    have := hall ⟨5, 0⟩ hmem
    norm_num [ServerSession.timed_out] at this

/-- C2: the locked release path first evicts the timed-out suffix from the
back (the sweep stops at the first live session from the right, so the kept
part's last element is live); then the returned session is discarded when it
is itself timed out, and otherwise appended at the front. -/
theorem return_server_session_correct (s : ServerSession)
    (pool : ServerSessionPool) (now tm : ℚ) :
    (∃ suffix, pool = clear_stale pool now tm ++ suffix ∧
        ∀ x ∈ suffix, x.timed_out now tm = true)
    ∧ (clear_stale pool now tm).getLast?.all
        (fun x => !(x.timed_out now tm)) = true
    ∧ return_server_session s pool now tm =
        (if s.timed_out now tm then clear_stale pool now tm
         else s :: clear_stale pool now tm) := by
  exact ⟨clear_stale_suffix pool now tm, clear_stale_getLast pool now tm, rfl⟩

/-- Witness for C2 at a concrete input: a live session returned to the empty
pool ends up at the front. -/
theorem return_server_session_correct_witness :
    return_server_session ⟨5, 0⟩ [] 0 30 = [⟨5, 0⟩] := by
  have h := (return_server_session_correct ⟨5, 0⟩ [] 0 30).2.2
  rw [h]
  norm_num [ServerSession.timed_out, clear_stale, List.dropWhile]

/-- C3: with `last_use = t0`, the staleness predicate evaluated at time `t`
is true exactly when `t - t0 > (tm - 1) * 60`; in particular it is false at
any `t1 < t0 + (tm - 1) * 60` and true at any `t2 > t0 + (tm - 1) * 60`. -/
theorem timed_out_characterization (s : ServerSession) (tm t1 t2 : ℚ)
    (h1 : t1 < s.last_use + (tm - 1) * 60)
    (h2 : t2 > s.last_use + (tm - 1) * 60) :
    (∀ t : ℚ, s.timed_out t tm = true ↔ t - s.last_use > (tm - 1) * 60)
    ∧ s.timed_out t1 tm = false ∧ s.timed_out t2 tm = true := by
  refine ⟨fun t => by simp [ServerSession.timed_out], ?_, ?_⟩
  · simp only [ServerSession.timed_out, decide_eq_false_iff_not, not_lt]
    linarith
  · simp only [ServerSession.timed_out, decide_eq_true_eq]
    linarith

/-- Witness for C3 at a concrete input: `t0 = 100`, `tm = 30`, so the
threshold is `1840`; the predicate is false at `99` and true at `1841`. -/
theorem timed_out_characterization_witness :
    ServerSession.timed_out ⟨0, 100⟩ 99 30 = false ∧
    ServerSession.timed_out ⟨0, 100⟩ 1841 30 = true := by
  have h := timed_out_characterization ⟨0, 100⟩ 30 99 1841
    (by norm_num) (by norm_num)
  exact ⟨h.2.1, h.2.2⟩

/-- C4: ending a session twice, in any combination of the explicit locked
path (`lock = true`) and the reclamation path (`lock = false`) and at any
pair of times, has the same effect as ending it once: the first call makes
the handle ended (so the record was handed back exactly once, by that call),
and the second call returns the handle and the pool completely unchanged
without raising. -/
theorem end_session_idempotent (cs : ClientSession)
    (pool : ServerSessionPool) (l1 l2 : Bool) (n1 m1 n2 m2 : ℚ) :
    end_session_impl (end_session_impl cs pool l1 n1 m1).1
        (end_session_impl cs pool l1 n1 m1).2 l2 n2 m2
      = end_session_impl cs pool l1 n1 m1
    ∧ has_ended (end_session_impl cs pool l1 n1 m1).1 = true := by
  cases h : cs.server_session <;>
    simp [end_session_impl, has_ended, h]

/-- C5: reading the identifier and using the session succeed exactly when
the session has not ended (both raise `InvalidOperation` exactly when
`has_ended` is true), while `client`, `options` and `has_ended` never fail:
ending the session leaves `client` and `options` readable and unchanged and
makes `has_ended` true. -/
theorem post_end_access (cs : ClientSession) (pool : ServerSessionPool)
    (lock : Bool) (now tm now2 : ℚ) :
    (session_id cs).isOk = !has_ended cs
    ∧ (use_lsid_handle cs now2).isOk = !has_ended cs
    ∧ (end_session_impl cs pool lock now tm).1.client = cs.client
    ∧ (end_session_impl cs pool lock now tm).1.options = cs.options
    ∧ has_ended (end_session_impl cs pool lock now tm).1 = true := by
  cases h : cs.server_session <;>
    simp [session_id, use_lsid_handle, has_ended, end_session_impl, h,
      Except.isOk, Except.toBool]

/-- C6 counterexample: checking out the pooled live session `⟨5, 0⟩` at time
`10` returns it with `last_use` still `0`, not the checkout time `10`:
`get_server_session` does not call `use_lsid` on the session it returns. -/
theorem checkout_leaves_last_use_unchanged :
    (get_server_session [⟨5, 0⟩] 10 30 7).1.last_use = 0
    ∧ (0 : ℚ) ≠ 10 := by
  constructor
  · norm_num [get_server_session, clear_stale, List.dropWhile, popFresh,
      ServerSession.timed_out]
  · norm_num

/-- Membership helper: the stale sweep only removes elements. -/
lemma mem_of_mem_clear_stale (pool : ServerSessionPool) (now tm : ℚ)
    (x : ServerSession) (hx : x ∈ clear_stale pool now tm) : x ∈ pool := by
  obtain ⟨suffix, hpool, _⟩ := clear_stale_suffix pool now tm
  rw [hpool]
  exact List.mem_append_left _ hx

/-- Membership helper: the session checked out by `get_server_session` is an
unmodified element of the input pool, or a fresh mint. -/
lemma get_server_session_fst_mem (pool : ServerSessionPool) (now tm : ℚ)
    (fresh_id : Nat) :
    (get_server_session pool now tm fresh_id).1 ∈ pool ∨
      (get_server_session pool now tm fresh_id).1 =
        ServerSession.create fresh_id now := by
  rcases popFresh_spec now tm (clear_stale pool now tm) with
    ⟨s, rest, pre, heq, hsplit, _, _⟩ | ⟨heq, _⟩
  · left
    have hmem : s ∈ clear_stale pool now tm := by
      rw [hsplit]
      simp
    have hp := mem_of_mem_clear_stale pool now tm s hmem
    simpa [get_server_session, heq] using hp
  · right
    simp [get_server_session, heq]

/-- Membership helper: every session left in the pool by
`get_server_session` is an unmodified element of the input pool. -/
lemma get_server_session_snd_mem (pool : ServerSessionPool) (now tm : ℚ)
    (fresh_id : Nat) :
    ∀ x ∈ (get_server_session pool now tm fresh_id).2, x ∈ pool := by
  rcases popFresh_spec now tm (clear_stale pool now tm) with
    ⟨s, rest, pre, heq, hsplit, _, _⟩ | ⟨heq, _⟩
  · intro x hx
    simp only [get_server_session, heq] at hx
    apply mem_of_mem_clear_stale pool now tm x
    rw [hsplit]
    simp [hx]
  · intro x hx
    simp [get_server_session, heq] at hx

/-- C6 amended: checkout does not update `last_use`: the session returned by
`get_server_session` is either an element of the input pool, unmodified, or
a fresh mint whose `last_use` is the mint time; `last_use` is written only
by `ServerSession.create` (construction) and `ServerSession.use_lsid`. -/
theorem last_use_updated_only_by_use_lsid (pool : ServerSessionPool)
    (now tm : ℚ) (fresh_id : Nat) :
    ((get_server_session pool now tm fresh_id).1 ∈ pool ∨
      (get_server_session pool now tm fresh_id).1 =
        ServerSession.create fresh_id now)
    ∧ (∀ s : ServerSession, (s.use_lsid now).1.last_use = now)
    ∧ (ServerSession.create fresh_id now).last_use = now := by
  exact ⟨get_server_session_fst_mem pool now tm fresh_id,
    fun s => rfl, rfl⟩

/-- C7: the lock-free return path is a bare `appendleft`: it takes no clock
or timeout argument (so no staleness sweep or check can occur), it is a
total function (never raises), the returned session becomes the front
element, and the tail is exactly the old pool, every element unchanged. -/
theorem return_no_lock_correct (s : ServerSession)
    (pool : ServerSessionPool) :
    (return_server_session_no_lock s pool).head? = some s
    ∧ (return_server_session_no_lock s pool).tail = pool
    ∧ (return_server_session_no_lock s pool).length = pool.length + 1 := by
  exact ⟨rfl, rfl, by simp [return_server_session_no_lock]⟩

/-- C8: releasing live records R1, R2, R3 in that order into the empty pool
through the locked path and then checking out three times (the clock not
advancing past staleness in between) returns them in last-in-first-out
order R3, R2, R1, and leaves the pool empty. -/
theorem recency_ordering (r1 r2 r3 : ServerSession) (now tm : ℚ)
    (f1 f2 f3 : Nat)
    (h1 : r1.timed_out now tm = false)
    (h2 : r2.timed_out now tm = false)
    (h3 : r3.timed_out now tm = false) :
    (get_server_session
        (return_server_session r3
          (return_server_session r2
            (return_server_session r1 [] now tm) now tm) now tm)
        now tm f1).1 = r3
    ∧ (get_server_session
        (get_server_session
          (return_server_session r3
            (return_server_session r2
              (return_server_session r1 [] now tm) now tm) now tm)
          now tm f1).2 now tm f2).1 = r2
    ∧ (get_server_session
        (get_server_session
          (get_server_session
            (return_server_session r3
              (return_server_session r2
                (return_server_session r1 [] now tm) now tm) now tm)
            now tm f1).2 now tm f2).2 now tm f3).1 = r1
    ∧ (get_server_session
        (get_server_session
          (get_server_session
            (return_server_session r3
              (return_server_session r2
                (return_server_session r1 [] now tm) now tm) now tm)
            now tm f1).2 now tm f2).2 now tm f3).2 = [] := by
  have e1 : return_server_session r1 [] now tm = [r1] := by
    simp [return_server_session, clear_stale, List.dropWhile, h1]
  have e2 : return_server_session r2 [r1] now tm = [r2, r1] := by
    simp [return_server_session, clear_stale, List.dropWhile, h1, h2]
  have e3 : return_server_session r3 [r2, r1] now tm = [r3, r2, r1] := by
    simp [return_server_session, clear_stale, List.dropWhile, h1, h2, h3]
  have g1 : get_server_session [r3, r2, r1] now tm f1 = (r3, [r2, r1]) := by
    simp [get_server_session, clear_stale, List.dropWhile, popFresh,
      h1, h2, h3]
  have g2 : get_server_session [r2, r1] now tm f2 = (r2, [r1]) := by
    simp [get_server_session, clear_stale, List.dropWhile, popFresh, h1, h2]
  have g3 : get_server_session [r1] now tm f3 = (r1, []) := by
    simp [get_server_session, clear_stale, List.dropWhile, popFresh, h1]
  simp [e1, e2, e3, g1, g2, g3]

/-- Witness for C8 at concrete records released at time 0 with a 30-minute
timeout: the first checkout returns R3. -/
theorem recency_ordering_witness :
    (get_server_session
        (return_server_session ⟨3, 0⟩
          (return_server_session ⟨2, 0⟩
            (return_server_session ⟨1, 0⟩ [] 0 30) 0 30) 0 30)
        0 30 7).1 = ⟨3, 0⟩ := by
  exact (recency_ordering ⟨1, 0⟩ ⟨2, 0⟩ ⟨3, 0⟩ 0 30 7 8 9
    (by norm_num [ServerSession.timed_out])
    (by norm_num [ServerSession.timed_out])
    (by norm_num [ServerSession.timed_out])).1

/-- C9: pool operations only reorder, remove or insert sessions, never
mutating their fields: the sweep and the checkout leftover keep only
elements of the input pool, the two return paths produce only the returned
record or input elements, the checked-out session is an input element or a
fresh mint, and `use_lsid` rewrites `last_use` without touching
`session_id` (which is written only at construction). -/
theorem pool_ops_never_mutate (s : ServerSession)
    (pool : ServerSessionPool) (now tm : ℚ) (fresh_id : Nat) :
    (∀ x ∈ clear_stale pool now tm, x ∈ pool)
    ∧ (∀ x ∈ return_server_session s pool now tm, x = s ∨ x ∈ pool)
    ∧ (∀ x ∈ return_server_session_no_lock s pool, x = s ∨ x ∈ pool)
    ∧ ((get_server_session pool now tm fresh_id).1 ∈ pool ∨
        (get_server_session pool now tm fresh_id).1 =
          ServerSession.create fresh_id now)
    ∧ (∀ x ∈ (get_server_session pool now tm fresh_id).2, x ∈ pool)
    ∧ (∀ t : ServerSession, (t.use_lsid now).1.session_id = t.session_id
        ∧ (t.use_lsid now).2 = t.session_id) := by
  refine ⟨mem_of_mem_clear_stale pool now tm, ?_, ?_,
    get_server_session_fst_mem pool now tm fresh_id,
    get_server_session_snd_mem pool now tm fresh_id,
    fun t => ⟨rfl, rfl⟩⟩
  · intro x hx
    by_cases hs : s.timed_out now tm = true
    · simp only [return_server_session, hs, if_true] at hx
      exact Or.inr (mem_of_mem_clear_stale pool now tm x hx)
    · rw [Bool.not_eq_true] at hs
      simp only [return_server_session, hs, Bool.false_eq_true, if_false,
        List.mem_cons] at hx
      rcases hx with rfl | hx
      · exact Or.inl rfl
      · exact Or.inr (mem_of_mem_clear_stale pool now tm x hx)
  · intro x hx
    rcases List.mem_cons.1 hx with rfl | hx
    · exact Or.inl rfl
    · exact Or.inr hx

/-- Witness for C9 at a concrete pool: the session kept by the sweep is an
element of the input pool. -/
theorem pool_ops_never_mutate_witness :
    (⟨5, 0⟩ : ServerSession) ∈ ([⟨5, 0⟩] : ServerSessionPool) := by
  refine (pool_ops_never_mutate ⟨9, 0⟩ [⟨5, 0⟩] 0 30 7).1 ⟨5, 0⟩ ?_
  norm_num [clear_stale, List.dropWhile, ServerSession.timed_out]

/-- C10: the staleness predicate has no lower bound on the configured
timeout: with `tm = 1` a session times out as soon as any strictly positive
time has elapsed, and with `tm < 1` it is timed out even at zero elapsed
time; consequently, with `tm < 1` and a clock that never runs backwards,
checkout always mints a fresh session and empties the pool, and the locked
return always discards everything. -/
theorem no_lower_bound_on_timeout (s : ServerSession)
    (pool : ServerSessionPool) (now tm : ℚ) (fresh_id : Nat)
    (hpos : now > s.last_use)
    (hlt : tm < 1)
    (hpool : ∀ x ∈ pool, now ≥ x.last_use) :
    s.timed_out now 1 = true
    ∧ s.timed_out s.last_use tm = true
    ∧ get_server_session pool now tm fresh_id =
        (ServerSession.create fresh_id now, [])
    ∧ return_server_session s pool now tm = [] := by
  have hone : s.timed_out now 1 = true := by
    simp only [ServerSession.timed_out, decide_eq_true_eq]
    linarith
  have hzero : s.timed_out s.last_use tm = true := by
    simp only [ServerSession.timed_out, decide_eq_true_eq]
    linarith
  have hst : s.timed_out now tm = true := by
    simp only [ServerSession.timed_out, decide_eq_true_eq]
    linarith
  have hall : ∀ x ∈ pool, x.timed_out now tm = true := by
    intro x hx
    simp only [ServerSession.timed_out, decide_eq_true_eq]
    have := hpool x hx
    linarith
  have hcs : clear_stale pool now tm = [] := by
    simp only [clear_stale, List.reverse_eq_nil_iff]
    rw [List.dropWhile_eq_nil_iff]
    intro x hx
    exact hall x (List.mem_reverse.1 hx)
  refine ⟨hone, hzero, ?_, ?_⟩
  · simp [get_server_session, hcs, popFresh]
  · simp [return_server_session, hcs, hst]

/-- Witness for C10 at concrete inputs: session last used at time 0,
evaluated at time 1 with timeout 1, at time 0 with timeout 1/2, over the
pool `[⟨4, 0⟩]`. -/
theorem no_lower_bound_on_timeout_witness :
    ServerSession.timed_out ⟨0, 0⟩ 1 1 = true
    ∧ ServerSession.timed_out ⟨0, 0⟩ 0 (1/2) = true
    ∧ return_server_session ⟨0, 0⟩ [⟨4, 0⟩] 1 (1/2) = [] := by
  have h := no_lower_bound_on_timeout ⟨0, 0⟩ [⟨4, 0⟩] 1 (1/2) 9
    (by norm_num) (by norm_num) ?_
  · exact ⟨h.1, h.2.1, h.2.2.2⟩
  · intro x hx
    rcases List.mem_singleton.1 hx with rfl
    norm_num

end PyMongoSession
